import Mathlib

/-!
Formal model of `recommend_coins.py` from the Crypto-Investment-Analyzer
repository.

Python floats are modelled exactly: the ranking/allocation layer
(`rank_coins_by_strategy`, `allocate_portfolio`) uses only field
arithmetic and is modelled over `ℚ`, so that everything is executable;
the statistics layer (`compute_coin_stats`) takes square roots and is
modelled over `ℝ`.
-/

namespace CryptoAnalyzer

/-- A row of the stats table as consumed by `rank_coins_by_strategy`:
the dict produced by `compute_coin_stats`, one field per pandas column.
`sharpe_ratio` and `annual_volatility` are `Option` because the ranker
explicitly drops rows where exactly these two are null
(`df.dropna(subset=['sharpe_ratio', 'annual_volatility'])`). -/
structure StatsRow where
  symbol : String
  name : String
  current_price : ℚ
  market_cap : ℚ
  volume_24h : ℚ
  total_return_1y : ℚ
  annual_return : ℚ
  daily_volatility : ℚ
  annual_volatility : Option ℚ
  sharpe_ratio : Option ℚ
  change_24h : ℚ
  change_7d : ℚ
  change_30d : ℚ
deriving DecidableEq

/-- `df.dropna(subset=['sharpe_ratio', 'annual_volatility'])`:
the rows that survive into scoring. -/
def keptRows (rows : List StatsRow) : List StatsRow :=
  rows.filter (fun r => r.sharpe_ratio.isSome && r.annual_volatility.isSome)

/-- The `annual_volatility` column over the kept rows. -/
def volVals (rows : List StatsRow) : List ℚ :=
  (keptRows rows).map (fun r => r.annual_volatility.getD 0)

/-- The `annual_return` column over the kept rows. -/
def retVals (rows : List StatsRow) : List ℚ :=
  (keptRows rows).map (fun r => r.annual_return)

/-- The `sharpe_ratio` column over the kept rows. -/
def sharpeVals (rows : List StatsRow) : List ℚ :=
  (keptRows rows).map (fun r => r.sharpe_ratio.getD 0)

/-- Tie-averaged percentile rank of the value `v` within the column `xs`:
pandas `Series.rank(pct=True)` (default `method='average'`,
`ascending=True`) assigns each entry the average of the one-based ordinal
ranks of its tie group, divided by the column length.  An entry of value
`v` with `lt` strictly smaller entries and `eq` entries of equal value
occupies, together with its ties, positions `lt+1, …, lt+eq`, whose
average is `lt + (eq+1)/2`.  The rank of an entry therefore depends only
on its value and on the column as a multiset, which is what this
value-level function computes. -/
def pctOf (xs : List ℚ) (v : ℚ) : ℚ :=
  (((xs.countP (fun w => decide (w < v)) : ℕ) : ℚ) +
      (((xs.countP (fun w => decide (w = v)) : ℕ) : ℚ) + 1) / 2) /
    ((xs.length : ℕ) : ℚ)

/-- The `df['score']` formula of `rank_coins_by_strategy`, one branch per
strategy string; the final `else` branch is the `balanced` score. -/
def scoreOf (rows : List StatsRow) (strategy : String) (r : StatsRow) : ℚ :=
  if strategy = "conservative" then
    (1 - pctOf (volVals rows) (r.annual_volatility.getD 0)) * 0.6 +
      pctOf (retVals rows) r.annual_return * 0.4
  else if strategy = "aggressive" then
    pctOf (retVals rows) r.annual_return * 0.7 +
      (1 - pctOf (volVals rows) (r.annual_volatility.getD 0)) * 0.3
  else
    pctOf (sharpeVals rows) (r.sharpe_ratio.getD 0)

/-- A row of the ranked table: a kept stats row together with its
`score` column. -/
structure RankedRow where
  row : StatsRow
  score : ℚ
deriving DecidableEq

/-- Insert one element into a list that is sorted by `score` descending,
keeping it sorted. -/
def insertDesc (x : RankedRow) : List RankedRow → List RankedRow
  | [] => [x]
  | y :: ys => if y.score < x.score then x :: y :: ys else y :: insertDesc x ys

/-- Deterministic model of `df.sort_values('score', ascending=False)`:
insertion sort by `score` descending. -/
def sortByScoreDesc : List RankedRow → List RankedRow
  | [] => []
  | x :: xs => insertDesc x (sortByScoreDesc xs)

/-- `rank_coins_by_strategy(stats_list, strategy)`: drop the rows with a
null `sharpe_ratio` or `annual_volatility`, attach the per-strategy score
built from tie-averaged percentile ranks, and sort by score descending. -/
def rankCoinsByStrategy (rows : List StatsRow) (strategy : String) : List RankedRow :=
  sortByScoreDesc ((keptRows rows).map (fun r => { row := r, score := scoreOf rows strategy r }))

/-- A row of the portfolio table produced by `allocate_portfolio`. -/
structure PortfolioLine where
  symbol : String
  name : String
  current_price : ℚ
  amount : ℚ
  quantity : ℚ
  score : ℚ
  annual_volatility : Option ℚ
  sharpe_ratio : Option ℚ
deriving DecidableEq

/-- `allocate_portfolio(ranked_df, investment_amount, top_n)`: take the
first `top_n` ranked rows (`ranked_df.head(top_n)`; fewer if the table is
shorter) and give each the equal-weight amount `investment_amount / top_n`. -/
def allocatePortfolio (ranked : List RankedRow) (investment_amount : ℚ)
    (top_n : ℕ) : List PortfolioLine :=
  (ranked.take top_n).map (fun e =>
    { symbol := e.row.symbol
      name := e.row.name
      current_price := e.row.current_price
      amount := investment_amount / (top_n : ℚ)
      quantity := investment_amount / (top_n : ℚ) / e.row.current_price
      score := e.score
      annual_volatility := e.row.annual_volatility
      sharpe_ratio := e.row.sharpe_ratio })

/-- A coin snapshot as returned by the markets endpoint, restricted to
the fields `compute_coin_stats` and `main` read.  `market_cap`,
`total_volume` and the three percentage changes may be null (`None`);
the code coerces each of them to `0` (`x or 0`, resp. `.get(key, 0) or 0`). -/
structure CoinSnapshot where
  id : String
  name : String
  symbol : String
  current_price : ℝ
  market_cap : Option ℝ
  total_volume : Option ℝ
  change_24h : Option ℝ
  change_7d : Option ℝ
  change_30d : Option ℝ

/-- The dict built by `fetch_historical_data` on success. -/
structure HistData (α : Type) where
  prices : List α
  returns : List α
  current_price : α
  start_price : α
  total_return : α
deriving DecidableEq

/-- `fetch_historical_data`, applied to the extracted price column.
On an empty price list the NumPy slicing `np.array(data['prices'])[:, 1]`
raises, the `except` catches it, and the function returns `None`; with at
least one sample every step succeeds:
`returns = np.diff(prices) / prices[:-1]` (empty when there is a single
sample), `current_price = prices[-1]`, `start_price = prices[0]`,
`total_return = prices[-1]/prices[0] - 1`. -/
def fetchHistoricalData {α : Type} [Field α] (priceList : List α) :
    Option (HistData α) :=
  match priceList with
  | [] => none
  | p :: ps =>
      some { prices := p :: ps
             returns := List.zipWith (fun prev cur => (cur - prev) / prev) (p :: ps) ps
             current_price := (p :: ps).getLast (List.cons_ne_nil p ps)
             start_price := p
             total_return := (p :: ps).getLast (List.cons_ne_nil p ps) / p - 1 }

/-- `np.mean` over a list of reals. -/
noncomputable def listMean (xs : List ℝ) : ℝ := xs.sum / ((xs.length : ℕ) : ℝ)

/-- Population variance, the square of `np.std`. -/
noncomputable def popVariance (xs : List ℝ) : ℝ :=
  ((xs.map (fun x => (x - listMean xs) ^ 2)).sum) / ((xs.length : ℕ) : ℝ)

/-- `np.std` (population standard deviation, the NumPy default). -/
noncomputable def popStd (xs : List ℝ) : ℝ := Real.sqrt (popVariance xs)

/-- The record built by `compute_coin_stats`, one field per dict key. -/
structure CoinStats where
  symbol : String
  name : String
  current_price : ℝ
  market_cap : ℝ
  volume_24h : ℝ
  total_return_1y : ℝ
  annual_return : ℝ
  daily_volatility : ℝ
  annual_volatility : ℝ
  sharpe_ratio : ℝ
  change_24h : ℝ
  change_7d : ℝ
  change_30d : ℝ

/-- The body of `compute_coin_stats` for a present history (the code past
the `if not hist_data: return None` guard). -/
noncomputable def statsOf (coin_data : CoinSnapshot) (hist_data : HistData ℝ) :
    CoinStats :=
  let returns := hist_data.returns
  let daily_volatility : ℝ := if returns.length > 0 then popStd returns else 0
  let annual_volatility : ℝ := daily_volatility * Real.sqrt 365
  let avg_daily_return : ℝ := if returns.length > 0 then listMean returns else 0
  let annual_return : ℝ := (1 + avg_daily_return) ^ (365 : ℕ) - 1
  let risk_free : ℝ := 0.03
  let sharpe_ratio : ℝ :=
    if annual_volatility > 0 then (annual_return - risk_free) / annual_volatility else 0
  { symbol := coin_data.symbol.toUpper
    name := coin_data.name
    current_price := coin_data.current_price
    market_cap := coin_data.market_cap.getD 0
    volume_24h := coin_data.total_volume.getD 0
    total_return_1y := hist_data.total_return
    annual_return := annual_return
    daily_volatility := daily_volatility
    annual_volatility := annual_volatility
    sharpe_ratio := sharpe_ratio
    change_24h := coin_data.change_24h.getD 0
    change_7d := coin_data.change_7d.getD 0
    change_30d := coin_data.change_30d.getD 0 }

/-- `compute_coin_stats(coin_data, hist_data)`: `None` when the history
is absent, otherwise the stats record. -/
noncomputable def computeCoinStats (coin_data : CoinSnapshot)
    (hist_data : Option (HistData ℝ)) : Option CoinStats :=
  match hist_data with
  | none => none
  | some h => some (statsOf coin_data h)

/-- The per-coin loop of `main`, with the fetch results abstracted as a
function of the coin id: `hist = fetch_historical_data(coin_id)`;
`if hist:` then `stats = compute_coin_stats(coin, hist)`; `if stats:`
then append to `stats_list`. -/
noncomputable def statsTable (coins : List CoinSnapshot)
    (hist : String → Option (HistData ℝ)) : List CoinStats :=
  coins.filterMap (fun c => (hist c.id).bind (fun h => computeCoinStats c (some h)))

/-! ### Helper lemmas about the descending sort -/

theorem mem_insertDesc (x a : RankedRow) (l : List RankedRow) :
    a ∈ insertDesc x l ↔ a = x ∨ a ∈ l := by
  induction l with
  | nil => simp [insertDesc]
  | cons y ys ih =>
    simp only [insertDesc]
    by_cases h : y.score < x.score
    · simp [h]
    · simp only [h, if_false, List.mem_cons, ih]
      tauto

theorem pairwise_insertDesc (x : RankedRow) (l : List RankedRow)
    (hl : l.Pairwise (fun a b => b.score ≤ a.score)) :
    (insertDesc x l).Pairwise (fun a b => b.score ≤ a.score) := by
  induction l with
  | nil => simp [insertDesc]
  | cons y ys ih =>
    rw [List.pairwise_cons] at hl
    obtain ⟨hy, hys⟩ := hl
    simp only [insertDesc]
    by_cases h : y.score < x.score
    · rw [if_pos h]
      refine List.Pairwise.cons ?_ (List.Pairwise.cons hy hys)
      intro b hb
      rcases List.mem_cons.mp hb with rfl | hb
      · exact le_of_lt h
      · exact le_trans (hy b hb) (le_of_lt h)
    · rw [if_neg h]
      refine List.Pairwise.cons ?_ (ih hys)
      intro b hb
      rcases (mem_insertDesc x b ys).mp hb with rfl | hb
      · exact not_lt.mp h
      · exact hy b hb

theorem pairwise_sortByScoreDesc (l : List RankedRow) :
    (sortByScoreDesc l).Pairwise (fun a b => b.score ≤ a.score) := by
  induction l with
  | nil => exact List.Pairwise.nil
  | cons x xs ih => exact pairwise_insertDesc x _ ih

theorem mem_sortByScoreDesc (a : RankedRow) (l : List RankedRow) :
    a ∈ sortByScoreDesc l ↔ a ∈ l := by
  induction l with
  | nil => simp [sortByScoreDesc]
  | cons x xs ih => simp [sortByScoreDesc, mem_insertDesc, ih]

/-- Every entry of the ranked table is a kept row paired with its
strategy score. -/
theorem mem_rank_eq_score (rows : List StatsRow) (strategy : String) (e : RankedRow)
    (he : e ∈ rankCoinsByStrategy rows strategy) :
    e.row ∈ keptRows rows ∧ e.score = scoreOf rows strategy e.row := by
  rw [rankCoinsByStrategy, mem_sortByScoreDesc, List.mem_map] at he
  obtain ⟨r, hr, rfl⟩ := he
  exact ⟨hr, rfl⟩

/-! ### Helper lemmas about the tie-averaged percentile rank -/

/-- A strictly smallest value of the column has percentile rank
`1 / length`, not `0`. -/
theorem pctOf_strict_min (xs : List ℚ) (v : ℚ)
    (hlow : ∀ w ∈ xs, w ≠ v → v < w)
    (hone : xs.countP (fun w => decide (w = v)) = 1) :
    pctOf xs v = 1 / ((xs.length : ℕ) : ℚ) := by
  have hlt : xs.countP (fun w => decide (w < v)) = 0 := by
    rw [List.countP_eq_zero]
    intro w hw
    simp only [decide_eq_true_eq]
    intro hwv
    exact absurd (hlow w hw (ne_of_lt hwv)) (lt_asymm hwv)
  simp only [pctOf, hlt, hone]
  norm_num

/-- A strictly largest value of the column has percentile rank `1`. -/
theorem pctOf_strict_max (xs : List ℚ) (v : ℚ) (hmem : v ∈ xs)
    (hhigh : ∀ w ∈ xs, w ≠ v → w < v)
    (hone : xs.countP (fun w => decide (w = v)) = 1) :
    pctOf xs v = 1 := by
  have hcongr : xs.countP (fun w => decide ¬(decide (w < v)) = true) =
      xs.countP (fun w => decide (w = v)) := by
    apply List.countP_congr
    intro w hw
    simp only [decide_eq_true_eq, decide_not, Bool.not_eq_true', decide_eq_false_iff_not]
    constructor
    · intro hnlt
      by_contra hne
      exact hnlt (hhigh w hw hne)
    · intro he
      subst he
      exact lt_irrefl w
  have hlen : xs.length = xs.countP (fun w => decide (w < v)) + 1 := by
    rw [List.length_eq_countP_add_countP (fun w => decide (w < v)) xs, hcongr, hone]
  have hk : ((xs.countP (fun w => decide (w < v)) : ℕ) : ℚ) + 1 ≠ 0 := by positivity
  simp only [pctOf, hone, hlen]
  push_cast
  rw [show ((1 : ℚ) + 1) / 2 = 1 by norm_num]
  exact div_self hk

/-! ### Concrete rows used in counterexamples and witnesses -/

/-- A kept row whose `sharpe_ratio` is strictly lowest in the examples. -/
def lowSharpeRow : StatsRow :=
  { symbol := "LOW", name := "Low", current_price := 1, market_cap := 0, volume_24h := 0,
    total_return_1y := 0, annual_return := 0, daily_volatility := 0,
    annual_volatility := some 0, sharpe_ratio := some 1, change_24h := 0, change_7d := 0,
    change_30d := 0 }

/-- A kept row whose `sharpe_ratio` is strictly highest in the examples. -/
def highSharpeRow : StatsRow :=
  { symbol := "HIGH", name := "High", current_price := 1, market_cap := 0, volume_24h := 0,
    total_return_1y := 0, annual_return := 0, daily_volatility := 0,
    annual_volatility := some 0, sharpe_ratio := some 2, change_24h := 0, change_7d := 0,
    change_30d := 0 }

/-- C1 counterexample: on the two-row collection with Sharpe ratios `1`
and `2`, the `balanced` ranking gives the row with the strictly lowest
`sharpe_ratio` the score `1/2`, not `0` as the claim states: pandas
`rank(pct=True)` assigns the lowest value the rank `1/n`, never `0`. -/
theorem rank_balanced_lowest_score_not_zero :
    rankCoinsByStrategy [lowSharpeRow, highSharpeRow] "balanced" =
      [{ row := highSharpeRow, score := 1 }, { row := lowSharpeRow, score := 1 / 2 }] ∧
    lowSharpeRow.sharpe_ratio = some 1 ∧ highSharpeRow.sharpe_ratio = some 2 ∧
    ((1 : ℚ) / 2 ≠ 0) := by
  refine ⟨?_, rfl, rfl, by norm_num⟩
  show sortByScoreDesc
      [{ row := lowSharpeRow, score := pctOf [1, 2] 1 },
       { row := highSharpeRow, score := pctOf [1, 2] 2 }] = _
  have h1 : pctOf [1, 2] 1 = 1 / 2 := by norm_num [pctOf]
  have h2 : pctOf [1, 2] 2 = 1 := by norm_num [pctOf]
  rw [h1, h2]
  show insertDesc _ (insertDesc _ []) = _
  simp [insertDesc]
  norm_num

/-- C1 (amended): every ranked entry's score is built from tie-averaged
percentile ranks of the kept columns (`pctOf`); a strictly lowest value
receives rank `1 / n` (not `0`) and a strictly highest receives rank `1`,
where `n` is the number of kept rows; in particular, under the `balanced`
strategy the row with the strictly lowest `sharpe_ratio` receives score
`1 / n`. -/
theorem rank_scores_are_tie_averaged_percentiles (rows : List StatsRow) (v : ℚ)
    (hmem : v ∈ sharpeVals rows)
    (hlow : ∀ w ∈ sharpeVals rows, w ≠ v → v < w)
    (hone : (sharpeVals rows).countP (fun w => decide (w = v)) = 1) :
    (∀ (strategy : String), ∀ e ∈ rankCoinsByStrategy rows strategy,
        e.score =
          if strategy = "conservative" then
            (1 - pctOf (volVals rows) (e.row.annual_volatility.getD 0)) * 0.6 +
              pctOf (retVals rows) e.row.annual_return * 0.4
          else if strategy = "aggressive" then
            pctOf (retVals rows) e.row.annual_return * 0.7 +
              (1 - pctOf (volVals rows) (e.row.annual_volatility.getD 0)) * 0.3
          else pctOf (sharpeVals rows) (e.row.sharpe_ratio.getD 0)) ∧
    pctOf (sharpeVals rows) v = 1 / (((sharpeVals rows).length : ℕ) : ℚ) ∧
    (∀ u ∈ sharpeVals rows, (∀ w ∈ sharpeVals rows, w ≠ u → w < u) →
        (sharpeVals rows).countP (fun w => decide (w = u)) = 1 →
        pctOf (sharpeVals rows) u = 1) ∧
    (∀ e ∈ rankCoinsByStrategy rows "balanced",
        e.row.sharpe_ratio.getD 0 = v →
          e.score = 1 / (((sharpeVals rows).length : ℕ) : ℚ)) := by
  refine ⟨?_, pctOf_strict_min _ _ hlow hone, ?_, ?_⟩
  · intro strategy e he
    obtain ⟨-, hs⟩ := mem_rank_eq_score rows strategy e he
    rw [hs]
    rfl
  · intro u hu hh h1
    exact pctOf_strict_max _ _ hu hh h1
  · intro e he hv
    obtain ⟨-, hs⟩ := mem_rank_eq_score rows "balanced" e he
    have hb : scoreOf rows "balanced" e.row =
        pctOf (sharpeVals rows) (e.row.sharpe_ratio.getD 0) := rfl
    rw [hs, hb, hv]
    exact pctOf_strict_min _ _ hlow hone

/-- C1 witness: at the two-row collection with Sharpe ratios `1` and `2`
the hypotheses hold, and the strictly lowest Sharpe row receives
score `1/2`. -/
theorem rank_scores_are_tie_averaged_percentiles_witness :
    pctOf (sharpeVals [lowSharpeRow, highSharpeRow]) 1 =
      1 / (((sharpeVals [lowSharpeRow, highSharpeRow]).length : ℕ) : ℚ) ∧
    (∀ e ∈ rankCoinsByStrategy [lowSharpeRow, highSharpeRow] "balanced",
        e.row.sharpe_ratio.getD 0 = 1 →
          e.score = 1 / (((sharpeVals [lowSharpeRow, highSharpeRow]).length : ℕ) : ℚ)) := by
  have hmem : (1 : ℚ) ∈ sharpeVals [lowSharpeRow, highSharpeRow] := by
    show (1 : ℚ) ∈ [1, 2]
    norm_num
  have hlow : ∀ w ∈ sharpeVals [lowSharpeRow, highSharpeRow], w ≠ 1 → 1 < w := by
    intro w hw hne
    have hw2 : w ∈ [(1 : ℚ), 2] := hw
    rcases List.mem_cons.mp hw2 with rfl | hw3
    · exact absurd rfl hne
    · rw [List.mem_singleton] at hw3
      rw [hw3]
      norm_num
  have hone : (sharpeVals [lowSharpeRow, highSharpeRow]).countP
      (fun w => decide (w = 1)) = 1 := by
    show List.countP (fun w => decide (w = 1)) [(1 : ℚ), 2] = 1
    norm_num [List.countP_cons]
  have h := rank_scores_are_tie_averaged_percentiles [lowSharpeRow, highSharpeRow] 1
    hmem hlow hone
  exact ⟨h.2.1, h.2.2.2⟩

/-- C7: `rank_coins_by_strategy` with any strategy string other than
`conservative`, `balanced` or `aggressive` lands in the final `else`
branch and produces exactly the `balanced` ranking. -/
theorem unknown_strategy_falls_back_to_balanced (rows : List StatsRow) (strategy : String)
    (h1 : strategy ≠ "conservative") (h2 : strategy ≠ "balanced")
    (h3 : strategy ≠ "aggressive") :
    rankCoinsByStrategy rows strategy = rankCoinsByStrategy rows "balanced" := by
  simp only [rankCoinsByStrategy, scoreOf, if_neg h1, if_neg h3]
  rfl

/-- C7 witness: the unrecognized strategy string `growth` ranks exactly
like `balanced`. -/
theorem unknown_strategy_falls_back_to_balanced_witness :
    rankCoinsByStrategy [lowSharpeRow, highSharpeRow] "growth" =
      rankCoinsByStrategy [lowSharpeRow, highSharpeRow] "balanced" :=
  unknown_strategy_falls_back_to_balanced [lowSharpeRow, highSharpeRow] "growth"
    (by decide) (by decide) (by decide)

/-- C8: for a non-empty stats collection with non-null `sharpe_ratio`
and `annual_volatility`, the ranked output is sorted by score
non-increasing (`df.sort_values('score', ascending=False)`). -/
theorem ranked_output_sorted_by_score_desc (rows : List StatsRow) (strategy : String)
    (hne : rows ≠ [])
    (hvalid : ∀ r ∈ rows, r.sharpe_ratio.isSome ∧ r.annual_volatility.isSome) :
    (rankCoinsByStrategy rows strategy).Pairwise (fun a b => b.score ≤ a.score) :=
  pairwise_sortByScoreDesc _

/-- C8 witness: the sortedness holds at the concrete two-row collection. -/
theorem ranked_output_sorted_by_score_desc_witness :
    (rankCoinsByStrategy [lowSharpeRow, highSharpeRow] "balanced").Pairwise
      (fun a b => b.score ≤ a.score) :=
  ranked_output_sorted_by_score_desc [lowSharpeRow, highSharpeRow] "balanced"
    (by decide) (by decide)

/-- C2: with at least `top_n` ranked rows, a positive investment amount
and `top_n > 0`, `allocate_portfolio` returns exactly `top_n` lines, each
line's `amount` is `investment_amount / top_n`, and the amounts sum to
`investment_amount`. -/
theorem allocate_equal_split (ranked : List RankedRow) (investment_amount : ℚ) (top_n : ℕ)
    (hlen : top_n ≤ ranked.length) (htop : 0 < top_n) (hinv : 0 < investment_amount) :
    (allocatePortfolio ranked investment_amount top_n).length = top_n ∧
    (∀ line ∈ allocatePortfolio ranked investment_amount top_n,
        line.amount = investment_amount / (top_n : ℚ)) ∧
    ((allocatePortfolio ranked investment_amount top_n).map (fun line => line.amount)).sum =
      investment_amount := by
  have hntop : ((top_n : ℕ) : ℚ) ≠ 0 := Nat.cast_ne_zero.mpr htop.ne'
  refine ⟨?_, ?_, ?_⟩
  · simp only [allocatePortfolio, List.length_map, List.length_take]
    omega
  · intro line hline
    simp only [allocatePortfolio, List.mem_map] at hline
    obtain ⟨e, he, rfl⟩ := hline
    rfl
  · simp only [allocatePortfolio, List.map_map]
    rw [show ((fun line => line.amount) ∘ (fun (e : RankedRow) =>
        ({ symbol := e.row.symbol, name := e.row.name, current_price := e.row.current_price,
           amount := investment_amount / (top_n : ℚ),
           quantity := investment_amount / (top_n : ℚ) / e.row.current_price,
           score := e.score, annual_volatility := e.row.annual_volatility,
           sharpe_ratio := e.row.sharpe_ratio } : PortfolioLine))) =
        (fun _ => investment_amount / (top_n : ℚ)) from rfl]
    rw [List.map_const', List.sum_replicate, List.length_take,
      Nat.min_eq_left hlen, nsmul_eq_mul, mul_comm]
    exact div_mul_cancel₀ investment_amount hntop

/-- C2 witness: five ranked rows, an investment of `10000` and
`top_n = 5` give five lines of amount `2000` summing to `10000`. -/
theorem allocate_equal_split_witness :
    (allocatePortfolio
        [{ row := lowSharpeRow, score := 1 }, { row := lowSharpeRow, score := 2 },
         { row := lowSharpeRow, score := 3 }, { row := lowSharpeRow, score := 4 },
         { row := lowSharpeRow, score := 5 }] 10000 5).length = 5 ∧
    (∀ line ∈ allocatePortfolio
        [{ row := lowSharpeRow, score := 1 }, { row := lowSharpeRow, score := 2 },
         { row := lowSharpeRow, score := 3 }, { row := lowSharpeRow, score := 4 },
         { row := lowSharpeRow, score := 5 }] 10000 5,
        line.amount = 2000) ∧
    ((allocatePortfolio
        [{ row := lowSharpeRow, score := 1 }, { row := lowSharpeRow, score := 2 },
         { row := lowSharpeRow, score := 3 }, { row := lowSharpeRow, score := 4 },
         { row := lowSharpeRow, score := 5 }] 10000 5).map
      (fun line => line.amount)).sum = 10000 := by
  have h := allocate_equal_split
    [{ row := lowSharpeRow, score := 1 }, { row := lowSharpeRow, score := 2 },
     { row := lowSharpeRow, score := 3 }, { row := lowSharpeRow, score := 4 },
     { row := lowSharpeRow, score := 5 }] 10000 5 (by decide) (by decide) (by norm_num)
  refine ⟨h.1, ?_, h.2.2⟩
  intro line hline
  rw [h.2.1 line hline]
  norm_num

/-- C9: when `top_n` exceeds the number of ranked rows,
`allocate_portfolio` raises no error (`head(top_n)` just returns every
row): it returns one line per available row, each with amount
`investment_amount / top_n`, so the amounts sum to strictly less than
`investment_amount` when at least one row exists. -/
theorem allocate_clamps_to_available (ranked : List RankedRow) (investment_amount : ℚ)
    (top_n : ℕ) (hgt : ranked.length < top_n) (hne : ranked ≠ [])
    (hinv : 0 < investment_amount) :
    (allocatePortfolio ranked investment_amount top_n).length = ranked.length ∧
    (∀ line ∈ allocatePortfolio ranked investment_amount top_n,
        line.amount = investment_amount / (top_n : ℚ)) ∧
    ((allocatePortfolio ranked investment_amount top_n).map (fun line => line.amount)).sum <
      investment_amount := by
  have htop : 0 < top_n := lt_of_le_of_lt (Nat.zero_le _) hgt
  have hntop : (0 : ℚ) < ((top_n : ℕ) : ℚ) := by exact_mod_cast htop
  refine ⟨?_, ?_, ?_⟩
  · simp only [allocatePortfolio, List.length_map, List.length_take]
    omega
  · intro line hline
    simp only [allocatePortfolio, List.mem_map] at hline
    obtain ⟨e, he, rfl⟩ := hline
    rfl
  · simp only [allocatePortfolio, List.map_map]
    rw [show ((fun line => line.amount) ∘ (fun (e : RankedRow) =>
        ({ symbol := e.row.symbol, name := e.row.name, current_price := e.row.current_price,
           amount := investment_amount / (top_n : ℚ),
           quantity := investment_amount / (top_n : ℚ) / e.row.current_price,
           score := e.score, annual_volatility := e.row.annual_volatility,
           sharpe_ratio := e.row.sharpe_ratio } : PortfolioLine))) =
        (fun _ => investment_amount / (top_n : ℚ)) from rfl]
    rw [List.map_const', List.sum_replicate, List.take_of_length_le (le_of_lt hgt),
      nsmul_eq_mul]
    calc (ranked.length : ℚ) * (investment_amount / (top_n : ℚ)) <
          (top_n : ℚ) * (investment_amount / (top_n : ℚ)) := by
            apply mul_lt_mul_of_pos_right
            · exact_mod_cast hgt
            · exact div_pos hinv hntop
        _ = investment_amount := by
            rw [mul_comm]
            exact div_mul_cancel₀ investment_amount hntop.ne'

/-- C9 witness: one ranked row, investment `10000`, `top_n = 5`: a single
line of amount `2000`, summing to `2000 < 10000`. -/
theorem allocate_clamps_to_available_witness :
    (allocatePortfolio [{ row := lowSharpeRow, score := 1 }] 10000 5).length = 1 ∧
    (∀ line ∈ allocatePortfolio [{ row := lowSharpeRow, score := 1 }] 10000 5,
        line.amount = 10000 / ((5 : ℕ) : ℚ)) ∧
    ((allocatePortfolio [{ row := lowSharpeRow, score := 1 }] 10000 5).map
      (fun line => line.amount)).sum < 10000 :=
  allocate_clamps_to_available [{ row := lowSharpeRow, score := 1 }] 10000 5
    (by decide) (by decide) (by norm_num)

/-! ### The statistics layer -/

/-- C3: `compute_coin_stats` sets
`sharpe_ratio = (annual_return - 0.03) / annual_volatility` when
`annual_volatility > 0` and `sharpe_ratio = 0` otherwise; since
`annual_volatility` is always non-negative, the `else` case is exactly
`annual_volatility == 0`, regardless of `annual_return`. -/
theorem sharpe_ratio_formula (coin_data : CoinSnapshot) (h : HistData ℝ) :
    computeCoinStats coin_data (some h) = some (statsOf coin_data h) ∧
    0 ≤ (statsOf coin_data h).annual_volatility ∧
    (statsOf coin_data h).sharpe_ratio =
      (if (statsOf coin_data h).annual_volatility > 0 then
        ((statsOf coin_data h).annual_return - 0.03) / (statsOf coin_data h).annual_volatility
      else 0) := by
  refine ⟨rfl, ?_, ?_⟩
  · show 0 ≤ (if h.returns.length > 0 then popStd h.returns else 0) * Real.sqrt 365
    apply mul_nonneg
    · by_cases hc : h.returns.length > 0
      · rw [if_pos hc]
        exact Real.sqrt_nonneg _
      · rw [if_neg hc]
    · exact Real.sqrt_nonneg _
  · rfl

/-- C10: a null `market_cap` or null `total_volume` in the snapshot is
stored as `0` in the `CoinStats` row (`coin_data['market_cap'] or 0`),
all other fields unchanged. -/
theorem null_snapshot_fields_stored_as_zero (coin_data : CoinSnapshot) (h : HistData ℝ) :
    statsOf { coin_data with market_cap := none } h =
      { statsOf coin_data h with market_cap := 0 } ∧
    statsOf { coin_data with total_volume := none } h =
      { statsOf coin_data h with volume_24h := 0 } ∧
    computeCoinStats { coin_data with market_cap := none } (some h) =
      some { statsOf coin_data h with market_cap := 0 } :=
  ⟨rfl, rfl, rfl⟩

/-- A concrete snapshot used in counterexamples and witnesses. -/
noncomputable def exSnapshot : CoinSnapshot :=
  { id := "bitcoin", name := "Bitcoin", symbol := "btc", current_price := 5,
    market_cap := some 1, total_volume := some 1, change_24h := none, change_7d := none,
    change_30d := none }

/-- C4 counterexample: a fetched history with exactly one price sample —
fewer than 2 — is NOT treated as unavailable: `fetch_historical_data`
returns a present result (`np.diff` of a one-element array is just
empty) and `compute_coin_stats` produces a `CoinStats` row from it. -/
theorem one_sample_history_produces_row :
    (fetchHistoricalData [(5 : ℝ)]).isSome = true ∧
    (computeCoinStats exSnapshot (fetchHistoricalData [(5 : ℝ)])).isSome = true ∧
    [(5 : ℝ)].length < 2 :=
  ⟨rfl, rfl, by norm_num⟩

/-- C4 (amended): only a fetched history with zero price samples is
treated as unavailable (the NumPy column slicing raises on an empty
array, the `except` turns it into `None`, and no `CoinStats` row is
produced); a history with exactly one sample is usable: the fetch
returns a present result with an empty return series and a `CoinStats`
row is produced for the coin. -/
theorem zero_samples_unavailable_one_sample_usable :
    fetchHistoricalData ([] : List ℝ) = none ∧
    (∀ coin_data : CoinSnapshot,
      computeCoinStats coin_data (fetchHistoricalData ([] : List ℝ)) = none) ∧
    (∀ (coin_data : CoinSnapshot) (p : ℝ),
      fetchHistoricalData [p] =
        some { prices := [p], returns := [], current_price := p, start_price := p,
               total_return := p / p - 1 } ∧
      (computeCoinStats coin_data (fetchHistoricalData [p])).isSome = true) :=
  ⟨rfl, fun _ => rfl, fun _ _ => ⟨rfl, rfl⟩⟩

/-- Indexing into `zipWith f l l.tail`: entry `i` is `f l[i] l[i+1]`. -/
theorem zipWith_tail_getElem {α : Type} (f : α → α → α) (l : List α) (i : ℕ) (p0 p1 : α)
    (h0 : l[i]? = some p0) (h1 : l[i + 1]? = some p1) :
    (List.zipWith f l l.tail)[i]? = some (f p0 p1) := by
  induction l generalizing i with
  | nil => simp at h0
  | cons x xs ih =>
    cases xs with
    | nil =>
      rcases i with _ | n
      · simp at h1
      · simp at h1
    | cons y ys =>
      rcases i with _ | n
      · simp only [List.getElem?_cons_zero, Option.some.injEq] at h0
        simp only [List.getElem?_cons_succ, List.getElem?_cons_zero, Option.some.injEq] at h1
        subst h0
        subst h1
        simp
      · rw [List.getElem?_cons_succ] at h0
        rw [List.getElem?_cons_succ] at h1
        simp only [List.tail_cons, List.zipWith_cons_cons]
        rw [List.getElem?_cons_succ]
        exact ih n h0 h1

/-- C5: for a price series with at least 2 samples the derived return
series has length `len(prices) - 1` and entry `i` equals
`(price[i+1] - price[i]) / price[i]`
(`returns = np.diff(prices) / prices[:-1]`). -/
theorem return_series_spec {α : Type} [Field α] (prices : List α)
    (h2 : 2 ≤ prices.length) :
    ∃ hd, fetchHistoricalData prices = some hd ∧
      hd.returns.length = prices.length - 1 ∧
      (∀ i p0 p1, prices[i]? = some p0 → prices[i + 1]? = some p1 →
        hd.returns[i]? = some ((p1 - p0) / p0)) := by
  cases prices with
  | nil => simp at h2
  | cons p ps =>
    refine ⟨_, rfl, ?_, ?_⟩
    · simp only [List.length_zipWith, List.length_cons]
      omega
    · intro i p0 p1 h0 h1
      exact zipWith_tail_getElem _ (p :: ps) i p0 p1 h0 h1

/-- C5 witness: the series `[1, 2, 4]` yields the return series
`[1, 1]` of length `2`. -/
theorem return_series_spec_witness :
    ∃ hd, fetchHistoricalData [(1 : ℚ), 2, 4] = some hd ∧
      hd.returns.length = 2 ∧ hd.returns[0]? = some 1 ∧ hd.returns[1]? = some 1 := by
  obtain ⟨hd, heq, hlen, hidx⟩ := return_series_spec [(1 : ℚ), 2, 4] (by norm_num)
  refine ⟨hd, heq, by simpa using hlen, ?_, ?_⟩
  · have h := hidx 0 1 2 rfl rfl
    rw [h]
    norm_num
  · have h := hidx 1 2 4 rfl rfl
    rw [h]
    norm_num

/-! ### The orchestrator loop -/

/-- C6: in the per-coin loop of `main`, a coin whose history fetch
fails (`fetch_historical_data` returned `None`) is skipped — the table
for `c :: coins` equals the table for `coins` — and every row of the
aggregated stats table comes from a coin whose fetch succeeded. -/
theorem failed_fetch_coin_skipped :
    (∀ (coins : List CoinSnapshot) (hist : String → Option (HistData ℝ))
        (c : CoinSnapshot), hist c.id = none →
          statsTable (c :: coins) hist = statsTable coins hist) ∧
    (∀ (coins : List CoinSnapshot) (hist : String → Option (HistData ℝ))
        (s : CoinStats), s ∈ statsTable coins hist →
          ∃ c, c ∈ coins ∧ ∃ hd, hist c.id = some hd ∧
            computeCoinStats c (some hd) = some s) := by
  constructor
  · intro coins hist c hc
    simp [statsTable, List.filterMap_cons, hc]
  · intro coins hist s hs
    simp only [statsTable, List.mem_filterMap] at hs
    obtain ⟨c, hc, he⟩ := hs
    rw [Option.bind_eq_some] at he
    obtain ⟨hd, hfetch, hstats⟩ := he
    exact ⟨c, hc, hd, hfetch, hstats⟩

/-- A one-sample history record, as produced by the fetch for `[1]`. -/
noncomputable def exHistSingle : HistData ℝ :=
  { prices := [1], returns := [], current_price := 1, start_price := 1, total_return := 0 }

/-- A snapshot whose history fetch fails in the witness scenario. -/
noncomputable def exCoinA : CoinSnapshot :=
  { id := "a", name := "A", symbol := "a", current_price := 1, market_cap := some 1,
    total_volume := some 1, change_24h := none, change_7d := none, change_30d := none }

/-- A snapshot whose history fetch succeeds in the witness scenario. -/
noncomputable def exCoinB : CoinSnapshot :=
  { id := "b", name := "B", symbol := "b", current_price := 1, market_cap := some 1,
    total_volume := some 1, change_24h := none, change_7d := none, change_30d := none }

/-- Fetch results for the witness scenario: coin `b` has a history,
every other coin's fetch fails. -/
noncomputable def exHistFetch : String → Option (HistData ℝ) :=
  fun coin_id => if coin_id = "b" then some exHistSingle else none

/-- C6 witness: coin `a` (failed fetch) is skipped and contributes no
row, while coin `b`'s row is traced back to its successful fetch. -/
theorem failed_fetch_coin_skipped_witness :
    statsTable [exCoinA, exCoinB] exHistFetch = statsTable [exCoinB] exHistFetch ∧
    (∃ c, c ∈ [exCoinB] ∧ ∃ hd, exHistFetch c.id = some hd ∧
        computeCoinStats c (some hd) = some (statsOf exCoinB exHistSingle)) := by
  constructor
  · exact failed_fetch_coin_skipped.1 [exCoinB] exHistFetch exCoinA rfl
  · apply failed_fetch_coin_skipped.2 [exCoinB] exHistFetch
    show statsOf exCoinB exHistSingle ∈ statsTable [exCoinB] exHistFetch
    simp [statsTable, exHistFetch, computeCoinStats, exCoinB]

end CryptoAnalyzer
